import Mathlib

/-!
Verification development for the `experiment.evaluate` subsystem of the
pyexperiment repository.

The Python source is shallowly embedded:

* `PyVal` models the Python values flowing through the evaluator (`None`,
  integers, and generator objects, the latter represented by the list of
  values they have left to yield).
* `Formula` models compiled expression code objects (`_code`): the concrete
  expression forms exercised by the specification (integer literals, variable
  references, `+`, `*`, and calls to `choice.ascending`).
* `PExprDef`/`PExprState` split a `ParameterExpression` object into its
  immutable part (compiled code, advance-trigger name, dependency list) and
  its mutable part (`_cached_value`, `_generator`).
* `NS` models `ExpressionNamespace`; `evalValue` is `_evaluate_value`.
  Python exceptions are modelled by `PyErr`; since Python mutations performed
  before an exception survive it, `evalValue` returns the error together with
  the state reached so far.

Dictionaries are modelled as association lists (`lookupA`, `aset`): assignment
replaces the first binding of the key or appends, lookup returns the first
binding, so each key has at most one live binding exactly as in a dict.
-/

deriving instance DecidableEq for Except

inductive PyErr where
  | stopIteration
  | nameError
  | typeError
  | valueError
  | keyError
  | attributeError
  | recursionLimit
  deriving DecidableEq, Repr

/-- A Python value: `None`, an int, or a generator object.  A generator object
is represented by the list of values it has left to yield (bounded sequences
only; every claim instantiates the `cycles` argument with a finite number). -/
inductive PyVal where
  | none
  | int (n : Int)
  | gen (s : List Int)
  deriving DecidableEq, Repr

/-- Association-list lookup: first binding of the key (dict lookup). -/
def lookupA {α : Type} : List (String × α) → String → Option α
  | [], _ => Option.none
  | (k', v) :: rest, k => if k' = k then some v else lookupA rest k

/-- Association-list assignment: replace the first binding or append
(`d[k] = v`). -/
def aset {α : Type} : List (String × α) → String → α → List (String × α)
  | [], k, v => [(k, v)]
  | (k', v') :: rest, k, v =>
      if k' = k then (k, v) :: rest else (k', v') :: aset rest k v

abbrev Ctx := List (String × PyVal)

/-- Model of `base.update(upd)` for dicts: later bindings in `upd` win. -/
def ctxUpdate (base upd : Ctx) : Ctx :=
  upd.foldl (fun c kv => aset c kv.1 kv.2) base

/-- The value the dict `upd` ends up binding `k` to (last binding wins),
used to state what `dict.update` does. -/
def lookupLast : Ctx → String → Option PyVal
  | [], _ => Option.none
  | (k', v) :: rest, k =>
      match lookupLast rest k with
      | some v' => some v'
      | Option.none => if k' = k then some v else Option.none

/-- Model of `d.get(k, None)` — dict lookup defaulting to `None`. -/
def getDv (c : Ctx) (k : String) : PyVal :=
  (lookupA c k).getD PyVal.none

/-- Insertion sort, modelling `list.sort()` on a list of ints. -/
def insertSorted (x : Int) : List Int → List Int
  | [] => [x]
  | y :: r => if x ≤ y then x :: y :: r else y :: insertSorted x r

def isort : List Int → List Int :=
  List.foldr insertSorted []

/-- Model of `generator.next()`: yield the next element or raise `StopIteration`. -/
def genNext : List Int → Except PyErr (Int × List Int)
  | [] => .error .stopIteration
  | v :: rest => .ok (v, rest)

/-- Compiled expression code (`_code`): the forms the claims exercise.
`ascendingCall seq cycles` is a call `ascending(seq, cycles=cycles)` into
`choice.options`. -/
inductive Formula where
  | const (v : PyVal)
  | var (n : String)
  | add (a b : Formula)
  | mul (a b : Formula)
  | ascendingCall (seq : List Int) (cycles : Nat)
  deriving DecidableEq, Repr

/-- The `co_names` of the compiled code: the global/variable names the expression
references, in order of first use (function names such as `ascending`
included, exactly as CPython records them). -/
def Formula.coNames : Formula → List String
  | .const _ => []
  | .var n => [n]
  | .add a b => a.coNames ++ b.coNames
  | .mul a b => a.coNames ++ b.coNames
  | .ascendingCall _ _ => ["ascending"]

/-- Model of `eval(code, GLOBALS, local_context)`.  Evaluating `ascending(...)` runs the
`check_sequence` wrapper eagerly (empty-sequence `ValueError`, shallow copy of
the argument) and returns a generator object whose stream is the sorted copy
repeated `cycles` times. -/
def evalFormula : Formula → Ctx → Except PyErr PyVal
  | .const v, _ => .ok v
  | .var n, ctx =>
      match lookupA ctx n with
      | some v => .ok v
      | Option.none => .error .nameError
  | .add a b, ctx => do
      let va ← evalFormula a ctx
      let vb ← evalFormula b ctx
      match va, vb with
      | .int x, .int y => .ok (.int (x + y))
      | _, _ => .error .typeError
  | .mul a b, ctx => do
      let va ← evalFormula a ctx
      let vb ← evalFormula b ctx
      match va, vb with
      | .int x, .int y => .ok (.int (x * y))
      | _, _ => .error .typeError
  | .ascendingCall seq cycles, _ =>
      if seq.length = 0 then .error .valueError
      else .ok (.gen (List.flatten (List.replicate cycles (isort seq))))

/-- Immutable part of a `ParameterExpression` built from a formula string:
`_code`, `_next_when` and `_dependencies` as set up by `__init__`
(`_code = None` for the constant branch). -/
structure PExprDef where
  _code : Option Formula
  _next_when : Option String
  _dependencies : List String
  deriving DecidableEq, Repr

/-- Model of `__init__` for a string value whose `u(expr, trigger)` wrapper has already
been split off: `_dependencies = list(code.co_names)` plus the trigger name
when present. -/
def mkCompiled (f : Formula) (nw : Option String) : PExprDef :=
  { _code := some f
    _next_when := nw
    _dependencies := f.coNames ++ (match nw with | some t => [t] | Option.none => []) }

/-- Mutable part of a `ParameterExpression`: `_cached_value` and
`_generator`. -/
structure PExprState where
  _cached_value : PyVal
  _generator : Option (List Int)
  deriving DecidableEq, Repr

/-- State of a freshly constructed (string-formula) expression. -/
def freshEState : PExprState :=
  { _cached_value := PyVal.none, _generator := Option.none }

/-- Model of `ParameterExpression.reset`: drop the live generator and memoized value,
a no-op when no generator is live. -/
def PExprState.reset (st : PExprState) : PExprState :=
  match st._generator with
  | some _ => freshEState
  | Option.none => st

/-- Model of `ParameterExpression.evaluate(local_context, dry_run, next_value)`. -/
def PExpr.evaluate (d : PExprDef) (st : PExprState) (ctx : Ctx)
    (dryRun : Bool) (nextValue : Bool) : Except PyErr (PyVal × PExprState) :=
  match st._generator with
  | some g =>
      if nextValue then
        match genNext g with
        | .error e => .error e
        | .ok (v, g') =>
            .ok (.int v, { _cached_value := .int v, _generator := some g' })
      else .ok (st._cached_value, st)
  | Option.none =>
      match d._code with
      | Option.none => .ok (st._cached_value, st)
      | some f =>
          match evalFormula f ctx with
          | .error e => .error e
          | .ok val =>
              match val, dryRun with
              | .gen s, false =>
                  match genNext s with
                  | .error e => .error e
                  | .ok (v, s') =>
                      .ok (.int v, { _cached_value := .int v, _generator := some s' })
              | v, _ => .ok (v, { st with _cached_value := v })

/-- An entry of the expression mapping: a raw (non-`ParameterExpression`)
value, or an expression definition. -/
inductive ExprDefn where
  | raw (v : PyVal)
  | expr (d : PExprDef)
  deriving DecidableEq, Repr

/-- The `ExpressionNamespace` state.  `pending` is the key set of the per-round
`_expressions` dict (its values are the shared expression objects of
`cached_expressions`, so only the keys need tracking); `estates` carries the
mutable state of each named `ParameterExpression` object. -/
structure NS where
  cached_expressions : List (String × ExprDefn)
  estates : List (String × PExprState)
  catchNames : List String
  context : Ctx
  old_context : Ctx
  changed_values : Ctx
  extra_context : Option Ctx
  pending : List String
  seqEnd : List (Option String)
  deriving DecidableEq, Repr

/-- Model of `ExpressionNamespace.reset_values`. -/
def NS.resetValues (s : NS) (extra : Option Ctx) : NS :=
  { s with
    extra_context := extra
    old_context := s.context
    context := []
    pending := s.cached_expressions.map Prod.fst
    changed_values := []
    seqEnd := [Option.none] }

/-- Model of `ExpressionNamespace.__init__(expressions, extra_context)`: collect the
`_next_when` names into `_catch`, call `reset()` on every
`ParameterExpression` object, then `reset_values(extra_context)`.
`estates0` is the pre-existing mutable state of the (possibly already used)
shared expression objects. -/
def NS.init (exprs : List (String × ExprDefn))
    (estates0 : List (String × PExprState)) (extra : Option Ctx) : NS :=
  let catchNames := exprs.filterMap (fun e =>
    match e.2 with
    | .expr d => d._next_when
    | .raw _ => Option.none)
  let estates := exprs.filterMap (fun e =>
    match e.2 with
    | .expr _ => some (e.1, ((lookupA estates0 e.1).getD freshEState).reset)
    | .raw _ => Option.none)
  NS.resetValues
    { cached_expressions := exprs
      estates := estates
      catchNames := catchNames
      context := []
      old_context := []
      changed_values := []
      extra_context := Option.none
      pending := []
      seqEnd := [] } extra

/-- Model of `ExpressionNamespace.set_value`: store in `_context`, and record in
`_changed_values` when the value differs from the previous round's. -/
def NS.setValue (s : NS) (p : String) (v : PyVal) : NS :=
  let c' := aset s.context p v
  { s with
    context := c'
    changed_values :=
      if getDv s.old_context p ≠ getDv c' p then aset s.changed_values p v
      else s.changed_values }

/-- The local evaluation context built by `_evaluate_value` (lines 260-265):
`context = self._context.copy()`, then `context.update(self._extra_context)`,
then `context.update(extra_context)`. -/
def NS.buildCtx (s : NS) (extra : Option Ctx) : Ctx :=
  let c := s.context
  let c := match s.extra_context with
           | Option.none => c
           | some ec => ctxUpdate c ec
  match extra with
  | Option.none => c
  | some e => ctxUpdate c e

/-- Model of the test `expression._next_when in self._seq_end`. -/
def NS.seqEndHas (s : NS) (t : Option String) : Bool :=
  decide (t ∈ s.seqEnd)

/-- State of the named expression object (`self._expressions[p]`, shared with
`self._cached_expressions[p]`). -/
def NS.getEState (s : NS) (p : String) : PExprState :=
  (lookupA s.estates p).getD freshEState

def NS.setEState (s : NS) (p : String) (e : PExprState) : NS :=
  { s with estates := aset s.estates p e }

/-- Model of `self._seq_end.append(parameter)`. -/
def NS.pushSeqEnd (s : NS) (p : String) : NS :=
  { s with seqEnd := s.seqEnd ++ [some p] }

/-- The dependency loop of `_evaluate_value` (lines 253-256): recursively
evaluate each dependency still pending; an exception aborts the loop but the
mutations made so far persist. -/
def evalDeps (f : NS → String → Except PyErr PyVal × NS) :
    NS → List String → Except PyErr Unit × NS
  | s, [] => (.ok (), s)
  | s, dep :: rest =>
      if dep ∈ s.pending then
        match f s dep with
        | (.ok _, s') => evalDeps f s' rest
        | (.error e, s') => (.error e, s')
      else evalDeps f s rest

/-- Tail of `_evaluate_value` after the dependency loop (lines 260-281):
build the local context, compute `next_value`, evaluate, on `StopIteration`
reset-and-retry when the parameter is in `_catch`, finally `set_value`. -/
def evalFinish (s2 : NS) (param : String) (extra : Option Ctx) (dry : Bool)
    (d : PExprDef) : Except PyErr PyVal × NS :=
  match PExpr.evaluate d (s2.getEState param) (s2.buildCtx extra) dry
      (s2.seqEndHas d._next_when) with
  | .ok (v, est') => (.ok v, (s2.setEState param est').setValue param v)
  | .error .stopIteration =>
      if param ∈ s2.catchNames then
        match PExpr.evaluate d (s2.getEState param).reset (s2.buildCtx extra) dry
            (s2.seqEndHas d._next_when) with
        | .ok (v, est2) =>
            (.ok v,
              ((((s2.setEState param (s2.getEState param).reset).pushSeqEnd param).setEState
                  param est2).setValue param v))
        | .error e =>
            (.error e, (s2.setEState param (s2.getEState param).reset).pushSeqEnd param)
      else (.error .stopIteration, s2)
  | .error e => (.error e, s2)

/-- Model of `ExpressionNamespace._evaluate_value(parameter, extra_context, dry_run)`.
The fuel argument models Python's recursion-depth limit (the source has no
cycle detection); every claim is settled at a depth far below the fuel. -/
def evalValue : Nat → NS → String → Option Ctx → Bool → Except PyErr PyVal × NS
  | 0, s, _, _, _ => (.error .recursionLimit, s)
  | Nat.succ fuel, s, param, extra, dry =>
      match lookupA s.context param with
      | some v => (.ok v, s)
      | Option.none =>
          if param ∈ s.pending then
            match lookupA s.cached_expressions param with
            | Option.none => (.error .keyError, { s with pending := s.pending.erase param })
            | some (.raw v) =>
                (.ok v, ({ s with pending := s.pending.erase param } : NS).setValue param v)
            | some (.expr d) =>
                match evalDeps (fun s' dep => evalValue fuel s' dep extra dry)
                    { s with pending := s.pending.erase param } d._dependencies with
                | (.error e, s2) => (.error e, s2)
                | (.ok _, s2) => evalFinish s2 param extra dry d
          else (.error .keyError, s)

/-! Concrete scenario of `test_generator_requires`: trigger
`p = ascending([0,1,2], cycles=1)` and dependent
`q = u(ascending([3,4,5], cycles=1), p)`. -/

def pDef : PExprDef := mkCompiled (.ascendingCall [0, 1, 2] 1) Option.none

def qDef : PExprDef := mkCompiled (.ascendingCall [3, 4, 5] 1) (some "p")

def c1Exprs : List (String × ExprDefn) := [("p", .expr pDef), ("q", .expr qDef)]

/-- Fresh `ExpressionNamespace({'p': ..., 'q': ...})`. -/
def c1Namespace : NS := NS.init c1Exprs [] Option.none

/-- One round resolving `p` then `q`, then `reset_values()`. -/
def pairRoundPQ (s : NS) : Except PyErr (PyVal × PyVal) × NS :=
  match evalValue 9 s "p" Option.none false with
  | (.ok vp, s1) =>
      match evalValue 9 s1 "q" Option.none false with
      | (.ok vq, s2) => (.ok (vp, vq), s2.resetValues Option.none)
      | (.error e, s2) => (.error e, s2)
  | (.error e, s1) => (.error e, s1)

/-- One round resolving `q` then `p`, then `reset_values()`. -/
def pairRoundQP (s : NS) : Except PyErr (PyVal × PyVal) × NS :=
  match evalValue 9 s "q" Option.none false with
  | (.ok vq, s1) =>
      match evalValue 9 s1 "p" Option.none false with
      | (.ok vp, s2) => (.ok (vp, vq), s2.resetValues Option.none)
      | (.error e, s2) => (.error e, s2)
  | (.error e, s1) => (.error e, s1)

/-- Run `n` successive rounds, collecting the pairs. -/
def runPairs (round : NS → Except PyErr (PyVal × PyVal) × NS) :
    Nat → NS → Except PyErr (List (PyVal × PyVal)) × NS
  | 0, s => (.ok [], s)
  | n + 1, s =>
      match round s with
      | (.ok pr, s') =>
          match runPairs round n s' with
          | (.ok rest, s'') => (.ok (pr :: rest), s'')
          | (.error e, s'') => (.error e, s'')
      | (.error e, s') => (.error e, s')

/-- The pair sequence the specification predicts for nine rounds. -/
def c1Expected : List (PyVal × PyVal) :=
  [(.int 0, .int 3), (.int 1, .int 3), (.int 2, .int 3),
   (.int 0, .int 4), (.int 1, .int 4), (.int 2, .int 4),
   (.int 0, .int 5), (.int 1, .int 5), (.int 2, .int 5)]

/-- C1: with trigger `p = ascending([0,1,2], cycles=1)` and dependent
`q = u(ascending([3,4,5], cycles=1), p)`, nine rounds (with `reset_values`
between rounds, resolving both names each round) produce the pair sequence
`(0,3),(1,3),(2,3),(0,4),(1,4),(2,4),(0,5),(1,5),(2,5)`, and the tenth round
raises `StopIteration`, whether `p` is resolved before `q` or `q` before `p`
within each round. -/
theorem c1_paired_sequence :
    (runPairs pairRoundPQ 9 c1Namespace).1 = .ok c1Expected ∧
    (pairRoundPQ (runPairs pairRoundPQ 9 c1Namespace).2).1 = .error .stopIteration ∧
    (runPairs pairRoundQP 9 c1Namespace).1 = .ok c1Expected ∧
    (pairRoundQP (runPairs pairRoundQP 9 c1Namespace).2).1 = .error .stopIteration := by
  decide

/-! Concrete scenario of `test_evaluate_value`: `a='5'`, `b='6'`, `c='a*5'`,
`d='a*b+c'`, resolving `d` with call-supplied extra context `{'a': 4}` after
`a` has already been resolved to `5`. -/

def aConstDef : PExprDef := mkCompiled (.const (.int 5)) Option.none

def bConstDef : PExprDef := mkCompiled (.const (.int 6)) Option.none

def cMulDef : PExprDef := mkCompiled (.mul (.var "a") (.const (.int 5))) Option.none

def dAddDef : PExprDef :=
  mkCompiled (.add (.mul (.var "a") (.var "b")) (.var "c")) Option.none

def c2Exprs : List (String × ExprDefn) :=
  [("a", .expr aConstDef), ("b", .expr bConstDef),
   ("c", .expr cMulDef), ("d", .expr dAddDef)]

def c2Namespace : NS := NS.init c2Exprs [] Option.none

/-- The namespace state after resolving `a` (to 5) in the current round. -/
def c2AfterA : NS := (evalValue 9 c2Namespace "a" Option.none false).2

theorem lookupA_aset_self {α : Type} (l : List (String × α)) (k : String) (v : α) :
    lookupA (aset l k v) k = some v := by
  induction l with
  | nil => simp [aset, lookupA]
  | cons p t ih =>
      obtain ⟨k', v'⟩ := p
      by_cases hk : k' = k
      · simp [aset, hk, lookupA]
      · simp [aset, hk, lookupA, ih]

theorem lookupA_aset_ne {α : Type} (l : List (String × α)) (k' k : String) (v : α)
    (h : k' ≠ k) : lookupA (aset l k' v) k = lookupA l k := by
  induction l with
  | nil => simp [aset, lookupA, h]
  | cons p t ih =>
      obtain ⟨k0, v0⟩ := p
      by_cases hk : k0 = k'
      · simp [aset, hk, lookupA, h]
      · by_cases hk2 : k0 = k
        · simp [aset, hk, lookupA, hk2, Ne.symm h]
        · simp [aset, hk, lookupA, hk2, ih]

/-- The `dict.update` model puts the update's bindings (last occurrence winning) in
front of the base dict's. -/
theorem lookupA_ctxUpdate (base upd : Ctx) (k : String) :
    lookupA (ctxUpdate base upd) k =
      match lookupLast upd k with
      | some v => some v
      | Option.none => lookupA base k := by
  induction upd generalizing base with
  | nil => simp [ctxUpdate, lookupLast]
  | cons p rest ih =>
      obtain ⟨k0, v0⟩ := p
      have hstep : ctxUpdate base ((k0, v0) :: rest) = ctxUpdate (aset base k0 v0) rest := by
        simp [ctxUpdate]
      rw [hstep, ih]
      cases hl : lookupLast rest k with
      | some v' => simp [lookupLast, hl]
      | none =>
          by_cases hk : k0 = k
          · subst hk; simp [lookupLast, hl, lookupA_aset_self]
          · simp [lookupLast, hl, hk, lookupA_aset_ne base k0 k v0 hk]

/-- C2 counterexample: with `a` already resolved to `5` in the round's context,
the local evaluation context built by `_evaluate_value` with call-supplied
extra context `{'a': 4}` binds `a` to `4`, not to the resolved `5`
(`dict.update` overrides), so evaluating `c = 'a*5'` and `d = 'a*b+c'` yields
`c = 20` and `d = 44` — refuting the claim that resolved namespace values
always take precedence over the extra-context layers. -/
theorem c2_cex_extra_overrides :
    lookupA c2AfterA.context "a" = some (.int 5) ∧
    lookupA (c2AfterA.buildCtx (some [("a", .int 4)])) "a" = some (.int 4) ∧
    (evalValue 9 c2AfterA "d" (some [("a", .int 4)]) false).1 = .ok (.int 44) ∧
    lookupA ((evalValue 9 c2AfterA "d" (some [("a", .int 4)]) false).2).context "c"
      = some (.int 20) ∧
    lookupA ((evalValue 9 c2AfterA "d" (some [("a", .int 4)]) false).2).context "a"
      = some (.int 5) := by
  decide

/-- C2 amended: in the local evaluation context built by `_evaluate_value`,
the call-supplied extra context takes precedence over the namespace-level
extra context, which takes precedence over the round's resolved values — the
opposite layering of the claim.  (Only the stored resolved context is
unaffected: an already-resolved name is never re-evaluated, as the last
conjunct of the counterexample shows.) -/
theorem c2_amended_context_layering (s : NS) (extra : Option Ctx) (k : String) :
    lookupA (s.buildCtx extra) k =
      match extra.bind (fun e => lookupLast e k) with
      | some v => some v
      | Option.none =>
          match s.extra_context.bind (fun e => lookupLast e k) with
          | some v => some v
          | Option.none => lookupA s.context k := by
  unfold NS.buildCtx
  cases extra with
  | none =>
      cases s.extra_context with
      | none => simp
      | some ec => simp [lookupA_ctxUpdate]
  | some e =>
      cases hec : s.extra_context with
      | none => simp [lookupA_ctxUpdate]
      | some ec =>
          simp only [hec, Option.bind_some, lookupA_ctxUpdate]
          cases hl : lookupLast e k <;> simp [hl]

/-! Structural lemmas about the namespace operations, used to prove the
general claims about `_evaluate_value`. -/

theorem setValue_context_lookup (s : NS) (p : String) (v : PyVal) :
    lookupA (s.setValue p v).context p = some v := by
  simp [NS.setValue, lookupA_aset_self]

theorem setEState_context (s : NS) (p : String) (e : PExprState) :
    (s.setEState p e).context = s.context := rfl

theorem getEState_setEState (s : NS) (p : String) (e : PExprState) :
    (s.setEState p e).getEState p = e := by
  simp [NS.getEState, NS.setEState, lookupA_aset_self]

/-- If no dependency is still pending, the dependency loop of
`_evaluate_value` is a no-op. -/
theorem evalDeps_noop (f : NS → String → Except PyErr PyVal × NS) (s : NS)
    (deps : List String) (h : ∀ dep ∈ deps, dep ∉ s.pending) :
    evalDeps f s deps = (.ok (), s) := by
  induction deps with
  | nil => rfl
  | cons dep rest ih =>
      have hd : dep ∉ s.pending := h dep (List.mem_cons_self dep rest)
      simp only [evalDeps, if_neg hd]
      exact ih (fun d hm => h d (List.mem_cons_of_mem dep hm))

/-- One unfolding of `_evaluate_value` for a parameter bound to a
`ParameterExpression` none of whose dependencies is still pending: the
parameter is popped from the pending set and handed to the evaluation tail
(`evalFinish`). -/
theorem evalValue_succ_expr (fuel : Nat) (s : NS) (param : String)
    (extra : Option Ctx) (dry : Bool) (d : PExprDef)
    (hc : lookupA s.context param = Option.none)
    (hp : param ∈ s.pending)
    (hd : lookupA s.cached_expressions param = some (.expr d))
    (hdeps : ∀ dep ∈ d._dependencies, dep ∉ s.pending) :
    evalValue (fuel + 1) s param extra dry
      = evalFinish { s with pending := s.pending.erase param } param extra dry d := by
  have hdeps' : ∀ dep ∈ d._dependencies,
      dep ∉ ({ s with pending := s.pending.erase param } : NS).pending := by
    intro dep hm hmem
    have hmem' : dep ∈ s.pending.erase param := hmem
    exact hdeps dep hm (List.erase_subset param s.pending hmem')
  simp only [evalValue, hc, if_pos hp, hd,
    evalDeps_noop (fun s' dep => evalValue fuel s' dep extra dry) _ _ hdeps']

/-- Every successful `_evaluate_value` path stores the returned value for the
parameter in the round's resolved context (lines 233-235, 247, 280). -/
theorem evalFinish_ok_mem (s2 : NS) (param : String) (extra : Option Ctx)
    (dry : Bool) (d : PExprDef) (v : PyVal) (s' : NS)
    (h : evalFinish s2 param extra dry d = (.ok v, s')) :
    lookupA s'.context param = some v := by
  unfold evalFinish at h
  cases he : PExpr.evaluate d (s2.getEState param) (s2.buildCtx extra) dry
      (s2.seqEndHas d._next_when) with
  | ok pr =>
      obtain ⟨v0, est'⟩ := pr
      simp only [he, Prod.mk.injEq, Except.ok.injEq] at h
      obtain ⟨hv, hs⟩ := h
      subst hv; subst hs
      exact setValue_context_lookup _ param v0
  | error e =>
      simp only [he] at h
      cases e with
      | stopIteration =>
          by_cases hcat : param ∈ s2.catchNames
          · simp only [if_pos hcat] at h
            cases hr : PExpr.evaluate d (s2.getEState param).reset
                (s2.buildCtx extra) dry (s2.seqEndHas d._next_when) with
            | ok pr2 =>
                obtain ⟨v2, est2⟩ := pr2
                simp only [hr, Prod.mk.injEq, Except.ok.injEq] at h
                obtain ⟨hv, hs⟩ := h
                subst hv; subst hs
                exact setValue_context_lookup _ param v2
            | error e2 =>
                simp only [hr] at h
                simp at h
          · simp only [if_neg hcat] at h
            simp at h
      | nameError => simp at h
      | typeError => simp at h
      | valueError => simp at h
      | keyError => simp at h
      | attributeError => simp at h
      | recursionLimit => simp at h

/-- A successful `_evaluate_value` leaves the returned value in the resolved
context under the requested name. -/
theorem evalValue_ok_mem (fuel : Nat) (s : NS) (param : String)
    (extra : Option Ctx) (dry : Bool) (v : PyVal) (s' : NS)
    (h : evalValue fuel s param extra dry = (.ok v, s')) :
    lookupA s'.context param = some v := by
  cases fuel with
  | zero => simp [evalValue] at h
  | succ fuel =>
      rw [evalValue] at h
      cases hc : lookupA s.context param with
      | some w =>
          simp only [hc, Prod.mk.injEq, Except.ok.injEq] at h
          obtain ⟨hv, hs⟩ := h
          subst hv; subst hs
          exact hc
      | none =>
          simp only [hc] at h
          by_cases hp : param ∈ s.pending
          · simp only [if_pos hp] at h
            cases hd : lookupA s.cached_expressions param with
            | none => simp only [hd] at h; simp at h
            | some defn =>
                simp only [hd] at h
                cases defn with
                | raw w =>
                    simp only [Prod.mk.injEq, Except.ok.injEq] at h
                    obtain ⟨hv, hs⟩ := h
                    subst hv; subst hs
                    exact setValue_context_lookup _ param w
                | expr d =>
                    cases hdp : evalDeps
                        (fun s'' dep => evalValue fuel s'' dep extra dry)
                        { s with pending := s.pending.erase param }
                        d._dependencies with
                    | mk er s2 =>
                        simp only [hdp] at h
                        cases er with
                        | ok u => exact evalFinish_ok_mem s2 param extra dry d v s' h
                        | error e => simp at h
          · simp only [if_neg hp] at h
            simp at h

/-- C5: if `evaluate_value(name)` succeeded in this round, a second call for
the same name without an intervening `reset_values` returns the identical
value with the state completely unchanged — so nothing is re-evaluated and no
underlying sequence cursor moves (regardless of the extra context or dry-run
flag of the second call). -/
theorem c5_evaluate_value_idempotent (fuel m : Nat) (s : NS) (param : String)
    (extra extra2 : Option Ctx) (dry dry2 : Bool) (v : PyVal) (s' : NS)
    (h : evalValue fuel s param extra dry = (.ok v, s')) :
    evalValue (m + 1) s' param extra2 dry2 = (.ok v, s') := by
  have hm := evalValue_ok_mem fuel s param extra dry v s' h
  rw [evalValue]
  simp [hm]

theorem c5_witness :
    evalValue 9 c1Namespace "p" Option.none false
      = (.ok (.int 0), (evalValue 9 c1Namespace "p" Option.none false).2) ∧
    evalValue 1 (evalValue 9 c1Namespace "p" Option.none false).2 "p" Option.none false
      = (.ok (.int 0), (evalValue 9 c1Namespace "p" Option.none false).2) :=
  ⟨by decide,
   c5_evaluate_value_idempotent 9 0 c1Namespace "p" Option.none Option.none false false
     (.int 0) ((evalValue 9 c1Namespace "p" Option.none false).2) (by decide)⟩

/-- Round-2 state of the C1 scenario after `p` has been resolved (to 1):
`p` is in the resolved context, but `_seq_end` is still `[None]`. -/
def c3sA : NS := (evalValue 9 ((pairRoundPQ c1Namespace).2) "p" Option.none false).2

/-- C3 counterexample: in round 2 of the paired-sequence scenario the trigger
`p` has been resolved (to 1) in the current round, yet `should_advance` for
`q` is false (`'p'` is not in `_seq_end`, which only records triggers that
exhausted and were auto-reset this round), so `q` returns its memoized 3 and
its generator does not move — refuting "should_advance iff the trigger has
been resolved in the current round". -/
theorem c3_cex_resolved_trigger_no_advance :
    lookupA c3sA.context "p" = some (.int 1) ∧
    (c3sA.getEState "q")._generator = some [4, 5] ∧
    c3sA.seqEndHas (some "p") = false ∧
    (evalValue 9 c3sA "q" Option.none false).1 = .ok (.int 3) ∧
    ((evalValue 9 c3sA "q" Option.none false).2.getEState "q")._generator = some [4, 5] := by
  decide

theorem getEState_setValue (s : NS) (p q : String) (v : PyVal) :
    (s.setValue p v).getEState q = s.getEState q := rfl

/-- C3 amended: for a generator-backed expression whose dependencies are all
settled, `should_advance` is true iff the expression's `_next_when` is in the
round's `_seq_end` list — which holds exactly when the expression declares no
trigger (the seeded `None` sentinel) or its trigger name was recorded after
exhausting and being auto-reset this round.  When false the expression holds
its memoized value and its generator does not move; when true the generator
is advanced to its next element. -/
theorem c3_amended_advance_iff_seq_end (fuel : Nat) (s : NS) (param : String)
    (extra : Option Ctx) (dry : Bool) (d : PExprDef) (g : List Int)
    (hc : lookupA s.context param = Option.none)
    (hp : param ∈ s.pending)
    (hd : lookupA s.cached_expressions param = some (.expr d))
    (hdeps : ∀ dep ∈ d._dependencies, dep ∉ s.pending)
    (hg : (s.getEState param)._generator = some g) :
    (d._next_when ∉ s.seqEnd →
       (evalValue (fuel + 1) s param extra dry).1
           = .ok (s.getEState param)._cached_value ∧
       (evalValue (fuel + 1) s param extra dry).2.getEState param
           = s.getEState param) ∧
    (∀ w g', d._next_when ∈ s.seqEnd → genNext g = .ok (w, g') →
       (evalValue (fuel + 1) s param extra dry).1 = .ok (.int w) ∧
       (evalValue (fuel + 1) s param extra dry).2.getEState param
           = { _cached_value := .int w, _generator := some g' }) := by
  rw [evalValue_succ_expr fuel s param extra dry d hc hp hd hdeps]
  constructor
  · intro hnv
    have hnvb : (({ s with pending := s.pending.erase param } : NS).seqEndHas
        d._next_when) = false := decide_eq_false hnv
    have hpe : PExpr.evaluate d
        (({ s with pending := s.pending.erase param } : NS).getEState param)
        (({ s with pending := s.pending.erase param } : NS).buildCtx extra) dry
        (({ s with pending := s.pending.erase param } : NS).seqEndHas d._next_when)
        = .ok ((s.getEState param)._cached_value, s.getEState param) := by
      rw [hnvb]
      show PExpr.evaluate d (s.getEState param) _ dry false = _
      simp [PExpr.evaluate, hg]
    unfold evalFinish
    rw [hpe]
    exact ⟨rfl, getEState_setEState _ param _⟩
  · intro w g' hnv hgn
    have hnvb : (({ s with pending := s.pending.erase param } : NS).seqEndHas
        d._next_when) = true := decide_eq_true hnv
    have hpe : PExpr.evaluate d
        (({ s with pending := s.pending.erase param } : NS).getEState param)
        (({ s with pending := s.pending.erase param } : NS).buildCtx extra) dry
        (({ s with pending := s.pending.erase param } : NS).seqEndHas d._next_when)
        = .ok (.int w, { _cached_value := .int w, _generator := some g' }) := by
      rw [hnvb]
      show PExpr.evaluate d (s.getEState param) _ dry true = _
      simp [PExpr.evaluate, hg, hgn]
    unfold evalFinish
    rw [hpe]
    exact ⟨rfl, getEState_setEState _ param _⟩

/-- Round-4 state of the C1 scenario after `p` exhausted, was auto-reset and
re-resolved to 0: `_seq_end = [None, 'p']`, so `q`'s trigger has fired. -/
def c3sB : NS := (evalValue 9 ((runPairs pairRoundPQ 3 c1Namespace).2) "p" Option.none false).2

theorem c3_witness :
    (lookupA c3sB.context "q" = Option.none ∧ "q" ∈ c3sB.pending ∧
     lookupA c3sB.cached_expressions "q" = some (.expr qDef) ∧
     (∀ dep ∈ qDef._dependencies, dep ∉ c3sB.pending) ∧
     (c3sB.getEState "q")._generator = some [4, 5] ∧
     some "p" ∈ c3sB.seqEnd ∧ genNext [4, 5] = .ok (4, [5])) ∧
    (evalValue 9 c3sB "q" Option.none false).1 = .ok (.int 4) ∧
    (evalValue 9 c3sB "q" Option.none false).2.getEState "q"
      = { _cached_value := .int 4, _generator := some [5] } :=
  ⟨⟨by decide, by decide, by decide, by decide, by decide, by decide, by decide⟩,
   (c3_amended_advance_iff_seq_end 8 c3sB "q" Option.none false qDef [4, 5]
       (by decide) (by decide) (by decide) (by decide) (by decide)).2
     4 [5] (by decide) (by decide)⟩

/-- C4: if evaluating a parameter's expression raises `StopIteration` (after
its dependencies are settled), then: when the parameter is not registered in
`_catch` (i.e. it is nobody's advance-trigger) the exhaustion propagates
uncaught, with only the pop from the pending set having happened; when it is
registered, the expression is reset, the name is appended to `_seq_end`
(recorded as fired this round), evaluation is retried exactly once and that
retry's outcome is returned. -/
theorem c4_exhaustion_reset_retry (fuel : Nat) (s : NS) (param : String)
    (extra : Option Ctx) (dry : Bool) (d : PExprDef)
    (hc : lookupA s.context param = Option.none)
    (hp : param ∈ s.pending)
    (hd : lookupA s.cached_expressions param = some (.expr d))
    (hdeps : ∀ dep ∈ d._dependencies, dep ∉ s.pending)
    (hstop : PExpr.evaluate d
        (({ s with pending := s.pending.erase param } : NS).getEState param)
        (({ s with pending := s.pending.erase param } : NS).buildCtx extra) dry
        (({ s with pending := s.pending.erase param } : NS).seqEndHas d._next_when)
        = .error .stopIteration) :
    (param ∉ s.catchNames →
       evalValue (fuel + 1) s param extra dry
         = (.error .stopIteration, { s with pending := s.pending.erase param })) ∧
    (param ∈ s.catchNames →
       evalValue (fuel + 1) s param extra dry
         = (match PExpr.evaluate d
               (({ s with pending := s.pending.erase param } : NS).getEState param).reset
               (({ s with pending := s.pending.erase param } : NS).buildCtx extra) dry
               (({ s with pending := s.pending.erase param } : NS).seqEndHas d._next_when) with
            | .ok (w, est2) =>
                (.ok w,
                  (((({ s with pending := s.pending.erase param } : NS).setEState param
                      (({ s with pending := s.pending.erase param } : NS).getEState
                        param).reset).pushSeqEnd param).setEState param est2).setValue
                    param w)
            | .error e =>
                (.error e,
                  (({ s with pending := s.pending.erase param } : NS).setEState param
                      (({ s with pending := s.pending.erase param } : NS).getEState
                        param).reset).pushSeqEnd param))) := by
  rw [evalValue_succ_expr fuel s param extra dry d hc hp hd hdeps]
  unfold evalFinish
  rw [hstop]
  constructor
  · intro hcat
    have hcat' : param ∉ ({ s with pending := s.pending.erase param } : NS).catchNames :=
      hcat
    rw [if_neg hcat']
  · intro hcat
    have hcat' : param ∈ ({ s with pending := s.pending.erase param } : NS).catchNames :=
      hcat
    rw [if_pos hcat']

/-- Round-10 state of the C1 scenario after `p` exhausted, was auto-reset and
re-resolved: evaluating `q` now exhausts `q`'s own sequence, and `q` is not in
`_catch`. -/
def c4s : NS := (evalValue 9 ((runPairs pairRoundPQ 9 c1Namespace).2) "p" Option.none false).2

theorem c4_witness :
    (lookupA c4s.context "q" = Option.none ∧ "q" ∈ c4s.pending ∧
     lookupA c4s.cached_expressions "q" = some (.expr qDef) ∧
     (∀ dep ∈ qDef._dependencies, dep ∉ c4s.pending) ∧
     "q" ∉ c4s.catchNames ∧
     PExpr.evaluate qDef
       (({ c4s with pending := c4s.pending.erase "q" } : NS).getEState "q")
       (({ c4s with pending := c4s.pending.erase "q" } : NS).buildCtx Option.none) false
       (({ c4s with pending := c4s.pending.erase "q" } : NS).seqEndHas qDef._next_when)
       = .error .stopIteration) ∧
    evalValue 9 c4s "q" Option.none false
      = (.error .stopIteration, { c4s with pending := c4s.pending.erase "q" }) :=
  ⟨⟨by decide, by decide, by decide, by decide, by decide, by decide⟩,
   (c4_exhaustion_reset_retry 8 c4s "q" Option.none false qDef
       (by decide) (by decide) (by decide) (by decide) (by decide)).1 (by decide)⟩

theorem reset_generator_none (st : PExprState) : st.reset._generator = Option.none := by
  cases h : st._generator <;> simp [PExprState.reset, h, freshEState]

/-- The `ExpressionNamespace.__init__` model stores, for every name bound to a
`ParameterExpression`, the `reset()` of that object's previous mutable
state. -/
theorem lookupA_init_estates (exprs : List (String × ExprDefn))
    (estates0 : List (String × PExprState)) (extra : Option Ctx)
    (n : String) (d : PExprDef)
    (h : lookupA exprs n = some (.expr d)) :
    lookupA (NS.init exprs estates0 extra).estates n
      = some (((lookupA estates0 n).getD freshEState).reset) := by
  show lookupA (exprs.filterMap fun e =>
      match e.2 with
      | .expr _ => some (e.1, ((lookupA estates0 e.1).getD freshEState).reset)
      | .raw _ => Option.none) n = _
  induction exprs with
  | nil => simp [lookupA] at h
  | cons e rest ih =>
      obtain ⟨k, defn⟩ := e
      by_cases hk : k = n
      · subst hk
        have hdefn : defn = .expr d := by simpa [lookupA] using h
        subst hdefn
        simp [List.filterMap_cons, lookupA]
      · have h' : lookupA rest n = some (.expr d) := by simpa [lookupA, hk] using h
        cases defn with
        | expr d2 => simp [List.filterMap_cons, lookupA, hk, ih h']
        | raw v => simp [List.filterMap_cons, ih h']

/-- C10: constructing a namespace over an expression mapping resets every
`ParameterExpression` object — its stored state becomes the `reset()` of its
previous state, so no live generator survives — and the first resolution of a
generator-backed parameter (whose formula evaluates to a fresh generator
stream `w :: rest`) re-runs the formula and yields the stream's first element
`w`, not a continuation of any prior cursor. -/
theorem c10_init_discards_generators (exprs : List (String × ExprDefn))
    (estates0 : List (String × PExprState)) (extra extra2 : Option Ctx)
    (n : String) (d : PExprDef) (f : Formula) (w : Int) (rest : List Int) (fuel : Nat)
    (h1 : lookupA exprs n = some (.expr d))
    (hn : n ∈ (NS.init exprs estates0 extra).pending)
    (hdeps : ∀ dep ∈ d._dependencies, dep ∉ (NS.init exprs estates0 extra).pending)
    (hf : d._code = some f)
    (hev : evalFormula f
        ((NS.init exprs estates0 extra).buildCtx extra2) = .ok (.gen (w :: rest))) :
    lookupA (NS.init exprs estates0 extra).estates n
        = some (((lookupA estates0 n).getD freshEState).reset) ∧
    ((NS.init exprs estates0 extra).getEState n)._generator = Option.none ∧
    (evalValue (fuel + 1) (NS.init exprs estates0 extra) n extra2 false).1
        = .ok (.int w) ∧
    (evalValue (fuel + 1) (NS.init exprs estates0 extra) n extra2 false).2.getEState n
        = { _cached_value := .int w, _generator := some rest } := by
  have ha := lookupA_init_estates exprs estates0 extra n d h1
  have hgen : ((NS.init exprs estates0 extra).getEState n)._generator = Option.none := by
    unfold NS.getEState
    rw [ha]
    simp [reset_generator_none]
  have hc : lookupA (NS.init exprs estates0 extra).context n = Option.none := rfl
  have hd0 : lookupA (NS.init exprs estates0 extra).cached_expressions n
      = some (.expr d) := h1
  rw [evalValue_succ_expr fuel _ n extra2 false d hc hn hd0 hdeps]
  have hgen' : ((({ NS.init exprs estates0 extra with
      pending := (NS.init exprs estates0 extra).pending.erase n } : NS)).getEState
        n)._generator = Option.none := hgen
  have hev' : evalFormula f
      ((({ NS.init exprs estates0 extra with
        pending := (NS.init exprs estates0 extra).pending.erase n } : NS)).buildCtx extra2)
      = .ok (.gen (w :: rest)) := hev
  have hpe : PExpr.evaluate d
      ((({ NS.init exprs estates0 extra with
        pending := (NS.init exprs estates0 extra).pending.erase n } : NS)).getEState n)
      ((({ NS.init exprs estates0 extra with
        pending := (NS.init exprs estates0 extra).pending.erase n } : NS)).buildCtx extra2)
      false
      ((({ NS.init exprs estates0 extra with
        pending := (NS.init exprs estates0 extra).pending.erase n } : NS)).seqEndHas
          d._next_when)
      = .ok (.int w, { _cached_value := .int w, _generator := some rest }) := by
    simp [PExpr.evaluate, hgen', hf, hev', genNext]
  refine ⟨ha, hgen, ?_, ?_⟩
  · unfold evalFinish
    rw [hpe]
  · unfold evalFinish
    rw [hpe]
    exact getEState_setEState _ n _

/-- An `ascending([0,1,2], cycles=1)` parameter whose shared expression object
was left mid-sequence (cached 1, generator about to yield 2) by earlier use. -/
def oDef : PExprDef := mkCompiled (.ascendingCall [0, 1, 2] 1) Option.none

def c10Exprs : List (String × ExprDefn) := [("o", .expr oDef)]

def c10Estates0 : List (String × PExprState) :=
  [("o", { _cached_value := .int 1, _generator := some [2] })]

theorem c10_witness :
    (lookupA c10Exprs "o" = some (.expr oDef) ∧
     "o" ∈ (NS.init c10Exprs c10Estates0 Option.none).pending ∧
     (∀ dep ∈ oDef._dependencies,
        dep ∉ (NS.init c10Exprs c10Estates0 Option.none).pending) ∧
     oDef._code = some (.ascendingCall [0, 1, 2] 1) ∧
     evalFormula (.ascendingCall [0, 1, 2] 1)
       ((NS.init c10Exprs c10Estates0 Option.none).buildCtx Option.none)
       = .ok (.gen [0, 1, 2])) ∧
    lookupA (NS.init c10Exprs c10Estates0 Option.none).estates "o"
        = some (((lookupA c10Estates0 "o").getD freshEState).reset) ∧
    ((NS.init c10Exprs c10Estates0 Option.none).getEState "o")._generator = Option.none ∧
    (evalValue 1 (NS.init c10Exprs c10Estates0 Option.none) "o" Option.none false).1
        = .ok (.int 0) ∧
    (evalValue 1 (NS.init c10Exprs c10Estates0 Option.none) "o" Option.none
        false).2.getEState "o"
        = { _cached_value := .int 0, _generator := some [1, 2] } :=
  ⟨⟨by decide, by decide, by decide, by decide, by decide⟩,
   c10_init_discards_generators c10Exprs c10Estates0 Option.none Option.none "o" oDef
     (.ascendingCall [0, 1, 2] 1) 0 [1, 2] 0
     (by decide) (by decide) (by decide) (by decide) (by decide)⟩

/-! Sequence generators of `choice.py`, modelled as the finite streams they
yield.  `check_sequence` raises `ValueError` on an empty collection and hands
the generator body a shallow copy (`sequence = sequence[:]`) of the caller's
list. -/

/-- Model of `choice.exact_order(sequence, cycles)`: the stream it will yield — the
(copied) sequence repeated `cycles` times in input order. -/
def exact_order (sequence : List Int) (cycles : Nat) : Except PyErr (List Int) :=
  if sequence.length = 0 then .error .valueError
  else .ok (List.flatten (List.replicate cycles sequence))

/-- Drive a generator `n` times, collecting the yielded values and the final
generator state. -/
def runGen : List Int → Nat → Except PyErr (List Int × List Int)
  | g, 0 => .ok ([], g)
  | g, n + 1 =>
      match genNext g with
      | .error e => .error e
      | .ok (v, g') =>
          match runGen g' n with
          | .ok (vs, gf) => .ok (v :: vs, gf)
          | .error e => .error e

theorem runGen_all (g : List Int) : runGen g g.length = .ok (g, []) := by
  induction g with
  | nil => rfl
  | cons v rest ih => simp [runGen, genNext, ih]

theorem length_flatten_replicate (k : Nat) (C : List Int) :
    (List.flatten (List.replicate k C)).length = k * C.length := by
  induction k with
  | zero => simp
  | succ k ih =>
      simp only [List.replicate_succ, List.flatten_cons, List.length_append, ih,
        Nat.succ_mul]
      omega

/-- C8: for a non-empty collection `C` and finite cycle count `k ≥ 1`,
`exact_order(C, k)` yields exactly `k*len(C)` values — the elements of `C`
repeated `k` times in original input order — and the next request after those
`k*len(C)` values raises `StopIteration`. -/
theorem c8_exact_order (C : List Int) (k : Nat) (hne : C ≠ []) (_hk : 1 ≤ k) :
    exact_order C k = .ok (List.flatten (List.replicate k C)) ∧
    (List.flatten (List.replicate k C)).length = k * C.length ∧
    runGen (List.flatten (List.replicate k C)) (k * C.length)
      = .ok (List.flatten (List.replicate k C), []) ∧
    genNext ([] : List Int) = .error .stopIteration := by
  refine ⟨?_, length_flatten_replicate k C, ?_, rfl⟩
  · simp [exact_order, List.length_eq_zero, hne]
  · rw [← length_flatten_replicate k C]
    exact runGen_all _

theorem c8_witness :
    (([7, 8] : List Int) ≠ [] ∧ (1 : Nat) ≤ 3) ∧
    (exact_order [7, 8] 3 = .ok (List.flatten (List.replicate 3 ([7, 8] : List Int))) ∧
     (List.flatten (List.replicate 3 ([7, 8] : List Int))).length
        = 3 * ([7, 8] : List Int).length ∧
     runGen (List.flatten (List.replicate 3 ([7, 8] : List Int)))
         (3 * ([7, 8] : List Int).length)
        = .ok (List.flatten (List.replicate 3 ([7, 8] : List Int)), []) ∧
     genNext ([] : List Int) = .error .stopIteration) :=
  ⟨⟨by decide, by decide⟩, c8_exact_order [7, 8] 3 (by decide) (by decide)⟩

/-! The aliasing model for the frame claim: the caller's collections live in a
store of mutable list cells; `check_sequence` copies the cell's current value
into the generator object (`sequence = sequence[:]`), so the generator never
holds a reference into the store, sorting/shuffling act on the copy, and later
writes to the caller's cell cannot reach it.  Randomized selection policies
take their random choices (index permutations / draws) as explicit oracle
arguments. -/

def insertSortedDesc (x : Int) : List Int → List Int
  | [] => [x]
  | y :: r => if x ≥ y then x :: y :: r else y :: insertSortedDesc x r

/-- Model of `list.sort(reverse=True)`. -/
def isortDesc : List Int → List Int :=
  List.foldr insertSortedDesc []

/-- Chunk sizes of `np.array_split(np.empty(n), k)`: the first `n % k` chunks
get `n / k + 1` entries, the rest `n / k`. -/
def splitSizes (n k : Nat) : List Nat :=
  (List.range k).map (fun i => if i < n % k then n / k + 1 else n / k)

/-- The counterbalanced working array before shuffling: each collection value
repeated according to its chunk size. -/
def counterBase (seq : List Int) (n : Nat) : List Int :=
  List.flatten ((List.zip (splitSizes n seq.length) seq).map
    (fun p => List.replicate p.1 p.2))

/-- Read a list out in the order given by an index permutation (the oracle for
`np.random.shuffle`). -/
def applyPerm (idxs : List Nat) (l : List Int) : List Int :=
  idxs.map (fun i => l.getD i 0)

/-- One selection policy per generator in `choice.options`, carrying its
explicit random oracle where the source draws randomness. -/
inductive Policy where
  | ascendingPol (cycles : Nat)
  | descendingPol (cycles : Nat)
  | exactOrderPol (cycles : Nat)
  | shuffledSetPol (cycles : Nat) (perms : List (List Nat))
  | pseudorandomPol (draws : List Nat)
  | counterbalancedPol (n : Nat) (cycles : Nat) (perms : List (List Nat))
  deriving DecidableEq, Repr

/-- The values a generator yields, as a function of the snapshot copied at
construction time. -/
def policyStream (p : Policy) (snapshot : List Int) : List Int :=
  match p with
  | .ascendingPol c => List.flatten (List.replicate c (isort snapshot))
  | .descendingPol c => List.flatten (List.replicate c (isortDesc snapshot))
  | .exactOrderPol c => List.flatten (List.replicate c snapshot)
  | .shuffledSetPol c perms =>
      List.flatten ((perms.take c).map (fun idxs => applyPerm idxs snapshot))
  | .pseudorandomPol draws => applyPerm draws snapshot
  | .counterbalancedPol n c perms =>
      List.flatten ((perms.take c).map (fun idxs => applyPerm idxs (counterBase snapshot n)))

/-- The heap of caller-owned list cells. -/
abbrev Store := List (List Int)

/-- A constructed generator: the policy plus the snapshot taken by
`check_sequence`; deliberately no reference back into the store. -/
structure GenObj where
  policy : Policy
  snapshot : List Int
  deriving DecidableEq, Repr

/-- Constructing a generator over the collection in cell `r`: the
`check_sequence` wrapper runs eagerly — empty-collection `ValueError`, then
`sequence = sequence[:]` copies the cell's current value into the generator.
The store is returned unmodified (construction never writes the caller's
cell; sorting/shuffling later act on the copy inside the generator). -/
def constructAt (st : Store) (r : Nat) (p : Policy) : Except PyErr GenObj :=
  if (st.getD r []).length = 0 then .error .valueError
  else .ok { policy := p, snapshot := st.getD r [] }

/-- Mutate the caller's cell `r` (e.g. `sequence[1] = 2` or re-sorting it). -/
def storeWrite (st : Store) (r : Nat) (l : List Int) : Store := st.set r l

/-- The values the generator yields when driven in store `st`: it iterates its
own snapshot, so the store is not consulted. -/
def genOutputsIn (_st : Store) (g : GenObj) : List Int :=
  policyStream g.policy g.snapshot

/-- C9: every generator is handed a shallow copy of the caller's collection at
construction: the snapshot equals the cell's value at construction time, any
write to any cell after construction leaves the generator's outputs unchanged
(for collections of immutable elements, which ints are), and the outputs are
the pure selection policy applied to the construction-time value — sorting
and shuffling never touch the caller's cell. -/
theorem c9_generators_no_mutation (st : Store) (r : Nat) (p : Policy) (g : GenObj)
    (h : constructAt st r p = .ok g) :
    g.snapshot = st.getD r [] ∧
    (∀ (r' : Nat) (l' : List Int),
        genOutputsIn (storeWrite st r' l') g = genOutputsIn st g) ∧
    genOutputsIn st g = policyStream p (st.getD r []) := by
  unfold constructAt at h
  by_cases hl : (st.getD r []).length = 0
  · rw [if_pos hl] at h
    exact absurd h (by simp)
  · simp only [if_neg hl, Except.ok.injEq] at h
    subst h
    exact ⟨rfl, fun r' l' => rfl, rfl⟩

theorem c9_witness :
    constructAt [[3, 1, 2]] 0 (.ascendingPol 2)
        = .ok { policy := .ascendingPol 2, snapshot := [3, 1, 2] } ∧
    genOutputsIn (storeWrite [[3, 1, 2]] 0 [9, 9])
        { policy := .ascendingPol 2, snapshot := [3, 1, 2] }
      = genOutputsIn [[3, 1, 2]] { policy := .ascendingPol 2, snapshot := [3, 1, 2] } ∧
    genOutputsIn [[3, 1, 2]] { policy := .ascendingPol 2, snapshot := [3, 1, 2] }
      = [1, 2, 3, 1, 2, 3] :=
  ⟨by decide,
   (c9_generators_no_mutation [[3, 1, 2]] 0 (.ascendingPol 2)
       { policy := .ascendingPol 2, snapshot := [3, 1, 2] } (by decide)).2.1 0 [9, 9],
   by decide⟩

/-! Textual model of `ParameterExpression.__init__` / `__eq__`:
`DEPENDENCY_PATTERN = re.compile(r'u\((.*), ([_A-Za-z][_A-Za-z0-9]*)\)')` is
matched (`re.match`, anchored at the start, prefix match, greedy `(.*)`)
against the original formula string; on a match the stored `_expression` is
the inner group and `_next_when` the trigger name.  `__eq__` compares the
stored `_expression` strings. -/

def isIdentStart (c : Char) : Bool :=
  c = '_' || ('A' ≤ c && c ≤ 'Z') || ('a' ≤ c && c ≤ 'z')

def isIdentChar (c : Char) : Bool :=
  isIdentStart c || ('0' ≤ c && c ≤ '9')

/-- Maximal run of identifier-continuation characters (`[_A-Za-z0-9]*`,
greedy). -/
def identRun : List Char → List Char × List Char
  | [] => ([], [])
  | c :: rest =>
      if isIdentChar c then (c :: (identRun rest).1, (identRun rest).2)
      else ([], c :: rest)

/-- Find the split of the text after `u(` realizing the regex backtracking:
the longest prefix `A` (greedy `(.*)`) such that it is followed by `, `, a
maximal nonempty identifier `[_A-Za-z][_A-Za-z0-9]*`, and `)`.  Later splits
are tried first, which is exactly what the greedy group does; shortening the
(greedy) identifier group can never help because the character after a
shortened identifier is an identifier character, not `)`. -/
def findSplit : List Char → Option (List Char × List Char)
  | [] => Option.none
  | c :: rest =>
      match findSplit rest with
      | some pr => some (c :: pr.1, pr.2)
      | Option.none =>
          if c = ',' then
            match rest with
            | ' ' :: r2 =>
                match r2 with
                | c2 :: r3 =>
                    if isIdentStart c2 then
                      match identRun r3 with
                      | (idTail, ')' :: _) => some ([], c2 :: idTail)
                      | _ => Option.none
                    else Option.none
                | [] => Option.none
            | _ => Option.none
          else Option.none

/-- Model of `DEPENDENCY_PATTERN.match(value)`: `some (inner, trigger)` when the
wrapper syntax matches (a prefix match suffices, as with `re.match`). -/
def uMatch (cs : List Char) : Option (List Char × List Char) :=
  match cs with
  | 'u' :: '(' :: t => findSplit t
  | _ => Option.none

/-- The `_expression` text stored for a string-valued construction: the inner
group when the `u(...)` wrapper matches, the whole string otherwise. -/
def stripU (cs : List Char) : List Char :=
  match uMatch cs with
  | some pr => pr.1
  | Option.none => cs

/-- The attributes of a string-constructed `ParameterExpression` that
`__eq__`/`__ne__` and serialization look at. -/
structure PEText where
  original : List Char
  nextWhen : Option (List Char)
  expressionText : List Char
  deriving DecidableEq, Repr

/-- Model of `ParameterExpression.__init__` on a formula string. -/
def mkPEText (value : List Char) : PEText :=
  match uMatch value with
  | some pr => { original := value, nextWhen := some pr.2, expressionText := pr.1 }
  | Option.none => { original := value, nextWhen := Option.none, expressionText := value }

/-- Model of `ParameterExpression.__eq__`: compares the stored `_expression` texts. -/
def peEq (x y : PEText) : Bool :=
  decide (x.expressionText = y.expressionText)

def c6e1 : PEText := mkPEText "u(ascending([3,4,5], cycles=1), p)".data

def c6e2 : PEText := mkPEText "u(ascending([3,4,5], cycles=1), q)".data

/-- C6 counterexample: the expressions built from
`u(ascending([3,4,5], cycles=1), p)` and `u(ascending([3,4,5], cycles=1), q)`
have different formula texts (they differ in the trigger name), yet `__eq__`
makes them equal, because it compares the stored `_expression` — the text
with the `u(..., trigger)` wrapper stripped — not the original formula
text. -/
theorem c6_cex_trigger_ignored :
    peEq c6e1 c6e2 = true ∧ c6e1.original ≠ c6e2.original := by
  decide

theorem mkPEText_expressionText (a : List Char) :
    (mkPEText a).expressionText = stripU a := by
  unfold mkPEText stripU
  cases uMatch a <;> rfl

/-- C6 amended: two string-built `ParameterExpression`s are equal under
`__eq__` iff their formula texts agree after stripping the `u(..., trigger)`
wrapper (so the advance-trigger name is ignored by equality); expressions with
different original texts are equal whenever the stripped texts coincide. -/
theorem c6_amended_eq_iff_stripped (a b : List Char) :
    peEq (mkPEText a) (mkPEText b) = true ↔ stripU a = stripU b := by
  simp [peEq, mkPEText_expressionText]

/-! Serialization model for `ParameterExpression`.  Pickling works on the
instance `__dict__`; `__getstate__` copies it and deletes `_code`;
`__setstate__` updates a fresh instance's `__dict__` with the state and then
reads `self._cache_valid` to decide whether to recompile.  Whether an
attribute read succeeds depends only on which attribute names are present, so
the dict is modelled by its key list. -/

/-- The attribute names set by `__init__` on a string-valued construction, in
assignment order (lines 39-51). -/
def initAttrsFormula : List String :=
  ["_original_expression", "_next_when", "_expression", "_code",
   "_cached_value", "_generator", "_dependencies"]

/-- The attribute names set by `__init__` on a non-string (constant)
construction (lines 39-40, 67-71). -/
def initAttrsConstant : List String :=
  ["_original_expression", "_next_when", "_dependencies", "_expression",
   "_cached_value", "_code", "_generator"]

/-- Model of `__getstate__`: copy the `__dict__` and delete `_code`. -/
def getstateAttrs (attrs : List String) : List String :=
  attrs.erase "_code"

/-- Model of `__setstate__`: after `self.__dict__.update(state)` the instance has
exactly the state's attributes; the guard `if not self._cache_valid` then
reads `_cache_valid`, raising `AttributeError` when no such attribute exists.
(When the attribute were present, both branches assign `_code` — a compile of
`_expression` or `None`.) -/
def setstateAttrs (state : List String) : Except PyErr (List String) :=
  if "_cache_valid" ∈ state then .ok (state ++ ["_code"])
  else .error .attributeError

/-- C7 (code bug): restoring any serialized `ParameterExpression` fails.
`__setstate__` reads `self._cache_valid`, but no code path ever sets a
`_cache_valid` attribute — neither branch of `__init__` nor `__getstate__` —
so every restore raises `AttributeError` instead of recompiling (non-constant)
or skipping compilation (constant). -/
theorem c7_setstate_attribute_error :
    setstateAttrs (getstateAttrs initAttrsFormula) = .error .attributeError ∧
    setstateAttrs (getstateAttrs initAttrsConstant) = .error .attributeError ∧
    "_cache_valid" ∉ initAttrsFormula ∧ "_cache_valid" ∉ initAttrsConstant := by
  decide
